import Mathlib

/-!
Shallow embedding of the audio-mosaicing core of this repository
(`src/analyzer.py`, `src/mosaicer.py`) and proofs of the spec's claims.

Sample buffers are modelled as `List ℚ` (exact rationals standing for the
float samples), paths and ids as `String`, and fallible Python code as
`Except PyError`.
-/

namespace Mosaic

/-- Python exception classes raised by the code paths modelled here.
`keyError` models pandas raising `KeyError` on a missing column,
`valueError` models the `ValueError`s raised by scikit-learn validation and
by the policy dispatch of `choose_frame_from_source_collection`,
`indexError` models `random.choice` / `list[0]` on an empty list. -/
inductive PyError where
  | keyError (missing : String) : PyError
  | valueError (msg : String) : PyError
  | indexError : PyError
deriving DecidableEq, Repr

/-- Embeds the Python slice `l[s : s + n]` for non-negative `s`, `n`
(`numpy`/list slicing never raises and never pads: it clamps to the
available elements). -/
def pySlice (l : List ℚ) (s n : Nat) : List ℚ :=
  (l.drop s).take n

/-- Embeds the Python slice `l[a : b]` for non-negative `a ≤ b`. -/
def pySliceTo (l : List ℚ) (a b : Nat) : List ℚ :=
  (l.drop a).take (b - a)

/-- Embeds `analyzer.py` lines 23-24: `if frame_size % 2 != 0: frame_size += 1`
(an odd frame size is forced to the next even integer). -/
def adjustFrameSize (f : Nat) : Nat :=
  if f % 2 ≠ 0 then f + 1 else f

/-- Embeds Python `range(0, stop, step)` for `step > 0`: the ascending
multiples of `step` that are `< stop`, i.e. `[0, step, 2*step, ...]` with
`⌈stop/step⌉` elements.  (Python raises `ValueError` for `step = 0`; every
use below is guarded by a positivity hypothesis.) -/
def pyRange (stop step : Nat) : List Nat :=
  (List.range ((stop + step - 1) / step)).map (fun i => i * step)

/-- Embeds `analyzer.py` line 32:
`frame_start_samples = list(range(0, len(audio), frame_size))`. -/
def frameStartSamples (L f : Nat) : List Nat :=
  pyRange L f

/-- Embeds `analyzer.py` lines 21-35 (fixed-size mode): adjust the frame
size to even, then
`zip(frame_start_samples[:-1], frame_start_samples[1:])` — adjacent
boundary pairs; the last boundary has no successor and is dropped. -/
def segmentFrames (L f0 : Nat) : List (Nat × Nat) :=
  let f := adjustFrameSize f0
  List.zip (frameStartSamples L f).dropLast ((frameStartSamples L f).drop 1)

lemma adjustFrameSize_pos {f : Nat} (hf : 0 < f) : 0 < adjustFrameSize f := by
  unfold adjustFrameSize
  split <;> omega

lemma adjustFrameSize_of_even {f : Nat} (hf : f % 2 = 0) : adjustFrameSize f = f := by
  simp [adjustFrameSize, hf]

/-- Closed form of the fixed-size segmentation: with `f` the adjusted frame
size and `m = ⌈L/f⌉` boundaries, the emitted frames are
`(i*f, (i+1)*f)` for `i < m - 1`. -/
lemma segmentFrames_eq (L f0 : Nat) :
    segmentFrames L f0 =
      (List.range ((L + adjustFrameSize f0 - 1) / adjustFrameSize f0 - 1)).map
        (fun i => (i * adjustFrameSize f0, (i + 1) * adjustFrameSize f0)) := by
  set f := adjustFrameSize f0 with hfdef
  set m := (L + f - 1) / f with hm
  have hstarts : frameStartSamples L f = (List.range m).map (fun i => i * f) := rfl
  apply List.ext_getElem
  · simp [segmentFrames, hstarts, ← hfdef, ← hm]
  · intro i h1 h2
    simp only [segmentFrames, ← hfdef, hstarts, ← hm] at h1 ⊢
    simp only [List.getElem_zip, List.getElem_dropLast, List.getElem_drop,
      List.getElem_map, List.getElem_range]
    simp only [List.length_zip, List.length_dropLast, List.length_map,
      List.length_range, List.length_drop, Nat.min_self] at h1
    simp [Nat.add_comm 1 i, Nat.add_mul]

/-- The number of boundaries `⌈L/f⌉ = (L + f - 1) / f` is `L/f` when `f`
divides `L` and `L/f + 1` otherwise. -/
lemma ceilDiv_char (L f : Nat) (hf : 0 < f) :
    L / f ≤ (L + f - 1) / f ∧ (L + f - 1) / f ≤ L / f + 1 ∧
      (L % f ≠ 0 → (L + f - 1) / f = L / f + 1) := by
  have hdm : f * (L / f) + L % f = L := Nat.div_add_mod L f
  have hr : L % f < f := Nat.mod_lt _ hf
  have h2 : (L + f - 1) / f ≤ L / f + 1 := by
    apply Nat.le_of_lt_succ
    rw [Nat.div_lt_iff_lt_mul hf]
    have e1 : (L / f + 1 + 1) * f = f * (L / f) + 2 * f := by ring
    rw [e1]
    omega
  refine ⟨Nat.div_le_div_right (by omega), h2, ?_⟩
  · intro hne
    have h3 : L / f + 1 ≤ (L + f - 1) / f := by
      rw [Nat.le_div_iff_mul_le hf]
      have e1 : (L / f + 1) * f = f * (L / f) + f := by ring
      rw [e1]
      omega
    omega

/-- The property claim C1 asserts of fixed-size segmentation of `L` samples
with requested frame size `f0` (adjusted to the next even integer when odd):
frame-count bounds `⌊L/f⌋ - 1 ≤ count ≤ ⌊L/f⌋`, every frame of length
exactly `f`, frames contiguous / non-overlapping / ascending (frame `i` is
`[i*f, (i+1)*f)`), no `end_sample` beyond `L`, and when a final partial
interval exists (`L % f ≠ 0`) it is dropped: the frames cover exactly
`[0, L - L % f)`. -/
def SegmentationSpec (L f0 : Nat) : Prop :=
  (L / adjustFrameSize f0 ≤ (segmentFrames L f0).length + 1 ∧
      (segmentFrames L f0).length ≤ L / adjustFrameSize f0)
  ∧ (∀ p ∈ segmentFrames L f0, p.2 = p.1 + adjustFrameSize f0)
  ∧ (∀ i, (h : i < (segmentFrames L f0).length) →
      ((segmentFrames L f0).get ⟨i, h⟩).1 = i * adjustFrameSize f0 ∧
      ((segmentFrames L f0).get ⟨i, h⟩).2 = (i + 1) * adjustFrameSize f0)
  ∧ (∀ p ∈ segmentFrames L f0, p.2 ≤ L)
  ∧ (L % adjustFrameSize f0 ≠ 0 →
      (segmentFrames L f0).length * adjustFrameSize f0 + L % adjustFrameSize f0 = L)

lemma segmentFrames_length (L f0 : Nat) :
    (segmentFrames L f0).length =
      (L + adjustFrameSize f0 - 1) / adjustFrameSize f0 - 1 := by
  rw [segmentFrames_eq]; simp

/-- C1: for every sample count `L` and positive requested frame size `f0`
(odd sizes adjusted to the next even integer), fixed-size segmentation
emits between `⌊L/f⌋ - 1` and `⌊L/f⌋` frames, each of length exactly `f`,
contiguous, non-overlapping, in ascending start order, with no frame end
beyond `L`, and the final partial interval shorter than `f` dropped. -/
theorem segmentFrames_spec (L f0 : Nat) (hf0 : 0 < f0) : SegmentationSpec L f0 := by
  unfold SegmentationSpec
  set f := adjustFrameSize f0 with hfdef
  have hf : 0 < f := adjustFrameSize_pos hf0
  have hcc := ceilDiv_char L f hf
  have hdm : f * (L / f) + L % f = L := Nat.div_add_mod L f
  have hr : L % f < f := Nat.mod_lt _ hf
  have hlen := segmentFrames_length L f0
  rw [← hfdef] at hlen
  refine ⟨?_, ?_, ?_, ?_, ?_⟩
  · generalize hA : (L + f - 1) / f = a at hcc hlen
    generalize hB : L / f = b at hcc ⊢
    omega
  · intro p hp
    rw [segmentFrames_eq, ← hfdef] at hp
    obtain ⟨i, _, rfl⟩ := List.mem_map.mp hp
    simp [Nat.add_mul]
  · intro i h
    simp only [segmentFrames_eq, ← hfdef, List.get_eq_getElem,
      List.getElem_map, List.getElem_range]
    trivial
  · intro p hp
    rw [segmentFrames_eq, ← hfdef] at hp
    obtain ⟨i, hi, rfl⟩ := List.mem_map.mp hp
    rw [List.mem_range] at hi
    have h1 : i + 1 ≤ L / f := by
      generalize hA : (L + f - 1) / f = a at hcc hi
      generalize hB : L / f = b at hcc ⊢
      omega
    have h2 : (i + 1) * f ≤ L / f * f := Nat.mul_le_mul_right f h1
    have h3 : L / f * f = f * (L / f) := Nat.mul_comm _ _
    have h4 : f * (L / f) ≤ L := by omega
    calc (i + 1) * f ≤ L / f * f := h2
      _ = f * (L / f) := h3
      _ ≤ L := h4
  · intro hne
    have hmq : (L + f - 1) / f = L / f + 1 := hcc.2.2 hne
    rw [hlen, hmq]
    have e1 : (L / f + 1 - 1) * f = f * (L / f) := by
      rw [Nat.add_sub_cancel, Nat.mul_comm]
    rw [e1]
    exact hdm

/-- Witness for `segmentFrames_spec` at `L = 10`, `f0 = 3` (adjusted to 4;
two frames `(0,4), (4,8)` are emitted and the partial `[8,10)` dropped). -/
theorem segmentFrames_spec_witness : 0 < 3 ∧ SegmentationSpec 10 3 :=
  ⟨by decide, segmentFrames_spec 10 3 (by decide)⟩

/-- Counterexample to claim C5: segmenting 176400 samples with
`frame_size = 8192` does NOT produce 20 frames (it produces 21:
`range(0, 176400, 8192)` has 22 boundaries, hence 21 adjacent pairs). -/
theorem segment_176400_8192_not_twenty :
    (segmentFrames 176400 8192).length ≠ 20 := by decide

/-- C5 (amended): segmenting a 4-second 44100 Hz target (176400 samples)
with `frame_size = 8192` produces exactly 21 full frames, each of length
8192, pairwise non-overlapping, and every frame's end is at most 176400. -/
theorem segment_176400_8192_spec :
    (segmentFrames 176400 8192).length = 21
    ∧ segmentFrames 176400 8192 =
        (List.range 21).map (fun i => (i * 8192, (i + 1) * 8192))
    ∧ (∀ p ∈ segmentFrames 176400 8192, p.2 - p.1 = 8192 ∧ p.2 ≤ 176400)
    ∧ (segmentFrames 176400 8192).Pairwise (fun a b => a.2 ≤ b.1) := by
  refine ⟨by decide, by decide, by decide, by decide⟩

/-! ## Feature table rows (`analyzer.py` per-frame dicts / pandas rows) -/

/-- One row of a feature table: the per-frame dict built by
`analyze_sound` (`analyzer.py` lines 39-58): metadata fields plus the
named numeric features (`loudness`, `mfcc_j`, ...) kept in `feats` in
insertion order. -/
structure FrameRow where
  freesound_id : String
  id : String
  path : String
  start_sample : Nat
  end_sample : Nat
  feats : List (String × ℚ)
deriving DecidableEq, Repr

instance : Inhabited FrameRow := ⟨⟨"", "", "", 0, 0, []⟩⟩

/-- Reading the named feature column of one row (`row["name"]`). -/
def rowLookup (r : FrameRow) (name : String) : Option ℚ :=
  r.feats.lookup name

/-- Embeds the pandas projection `row[features]`: the feature values in the
exact order of `features`; a missing column raises `KeyError`. -/
def rowSelect (r : FrameRow) : List String → Except PyError (List ℚ)
  | [] => .ok []
  | name :: rest =>
    match rowLookup r name with
    | none => .error (.keyError name)
    | some v =>
      match rowSelect r rest with
      | .ok vs => .ok (v :: vs)
      | .error e => .error e

/-- Embeds `df[features].values`: one row of selected feature values per
table row, in table order; a missing column raises `KeyError`. -/
def selectMatrix : List FrameRow → List String → Except PyError (List (List ℚ))
  | [], _ => .ok []
  | r :: rest, features =>
    match rowSelect r features with
    | .error e => .error e
    | .ok v =>
      match selectMatrix rest features with
      | .ok vs => .ok (v :: vs)
      | .error e => .error e

/-! ## Similarity matching (`mosaicer.py` lines 14-89) -/

/-- `mosaicer.py` lines 16-27: the fixed list of feature columns used for
similarity. -/
def similarity_features : List String :=
  ["mfcc_0", "mfcc_1", "mfcc_2", "mfcc_3", "mfcc_4", "mfcc_5", "mfcc_6",
   "mfcc_7", "mfcc_8", "mfcc_9", "mfcc_10", "mfcc_11", "mfcc_12",
   "loudness", "spectral_centroid", "danceability", "flux", "hfc",
   "spectral_complexity", "pitch_salience", "intensity"]

/-- Squared Euclidean distance between two equal-length feature vectors
(the metric of the `NearestNeighbors` search; squaring is monotone so the
ranking is unchanged). -/
def sqDist (xs ys : List ℚ) : ℚ :=
  ((List.zip xs ys).map (fun p => (p.1 - p.2) * (p.1 - p.2))).sum

/-- The indices of the `k` rows of `X` nearest to the query `q`, by
ascending distance, ties broken by row order (stable sort): the semantics
of `NearestNeighbors(...).fit(X).kneighbors(q)`. -/
def kNearestIdx (X : List (List ℚ)) (q : List ℚ) (k : Nat) : List Nat :=
  ((List.insertionSort (fun a b => a.1 ≤ b.1)
      ((List.range X.length).map (fun i => (sqDist q (X.getD i []), i)))).take k).map
    (fun p => p.2)

/-- Embeds `find_similar_frames` (`mosaicer.py` lines 48-63) including the
validation performed by pandas / scikit-learn on this call path:
`df[features]` raises `KeyError` on a missing column; `fit` raises
`ValueError` on a 0-feature or 0-row matrix; `kneighbors` raises
`ValueError` when the query dimension mismatches or when
`n_neighbors` is zero or exceeds the number of fitted rows. -/
def find_similar_frames (query_frame : List ℚ) (df_source_frames : List FrameRow)
    (n : Nat) (features : List String) : Except PyError (List FrameRow) :=
  match selectMatrix df_source_frames features with
  | .error e => .error e
  | .ok X =>
    if features.length = 0 then
      .error (.valueError "found array with 0 feature(s)")
    else if df_source_frames.length = 0 then
      .error (.valueError "found array with 0 sample(s)")
    else if query_frame.length ≠ features.length then
      .error (.valueError "incompatible dimension for query")
    else if n = 0 ∨ df_source_frames.length < n then
      .error (.valueError "expected n_neighbors <= n_samples")
    else
      .ok ((kNearestIdx X query_frame n).map
        (fun j => df_source_frames.getD j default))

/-- Embeds the policy dispatch of `choose_frame_from_source_collection`
(`mosaicer.py` lines 83-89): `"random"` picks uniformly among the
candidates (the random draw is modelled by the oracle index `rand`),
`"best"` takes `similar_frames[0]`, anything else raises
`ValueError(f"Invalid choice: {choice}")`. -/
def selectFromSimilar (choice : String) (similar_frames : List FrameRow)
    (rand : Nat) : Except PyError FrameRow :=
  if choice = "random" then
    match similar_frames with
    | [] => .error .indexError
    | _ :: _ => .ok (similar_frames.getD (rand % similar_frames.length) default)
  else if choice = "best" then
    match similar_frames with
    | [] => .error .indexError
    | x :: _ => .ok x
  else
    .error (.valueError ("Invalid choice: " ++ choice))

/-- Embeds `choose_frame_from_source_collection` (`mosaicer.py` lines
66-89): extract the query vector `target_frame[similarity_features]`, find
the 10 (hard-coded `n_neighbours_to_find`) nearest source frames, then
apply the selection policy. -/
def choose_frame_from_source_collection (target_frame : FrameRow)
    (df_source_frames : List FrameRow) (features : List String)
    (choice : String) (rand : Nat) : Except PyError FrameRow :=
  let n_neighbours_to_find := 10
  match rowSelect target_frame features with
  | .error e => .error e
  | .ok query_frame =>
    match find_similar_frames query_frame df_source_frames n_neighbours_to_find
        features with
    | .error e => .error e
    | .ok similar_frames => selectFromSimilar choice similar_frames rand

/-! ## Segment cache (`mosaicer.py` lines 11-12 and 30-45) -/

/-- The module-level dictionary `loaded_audio_files` mapping a path to the
full decoded sample buffer, modelled as an association list threaded
through the calls; `decode` stands for `estd.MonoLoader(filename=p)()`. -/
abbrev AudioCache := List (String × List ℚ)

/-- Embeds `get_audio_file_segment`: on a cache miss the whole file is
decoded and stored; the requested slice `audio[start_sample :
start_sample + n_samples]` is returned (clamped, never raising and never
padding). Returns the updated cache together with the segment. -/
def get_audio_file_segment (decode : String → List ℚ) (cache : AudioCache)
    (file_path : String) (start_sample n_samples : Nat) :
    AudioCache × List ℚ :=
  match cache.lookup file_path with
  | none =>
    let audio := decode file_path
    ((file_path, audio) :: cache, pySlice audio start_sample n_samples)
  | some audio => (cache, pySlice audio start_sample n_samples)

/-- A sequence of `get_audio_file_segment` calls threaded through the
cache, also recording which paths were decoded (cache misses), for the
decode-at-most-once property. -/
def runSegmentRequests (decode : String → List ℚ) :
    List (String × Nat × Nat) → AudioCache → AudioCache × List String
  | [], cache => (cache, [])
  | (p, s, n) :: rest, cache =>
    let decoded := if (cache.lookup p).isNone then [p] else []
    let next := runSegmentRequests decode rest
      (get_audio_file_segment decode cache p s n).1
    (next.1, decoded ++ next.2)

/-- The cache holds only genuinely decoded buffers: every entry is the
full decode of its path (true of the empty initial cache and preserved by
every call). -/
def CacheConsistent (decode : String → List ℚ) (cache : AudioCache) : Prop :=
  ∀ p b, cache.lookup p = some b → b = decode p

/-! ## Per-frame analysis (`analyzer.py` lines 37-61) -/

/-- The named MFCC features `mfcc_0 .. mfcc_{n-1}` built from the
coefficient vector (`analyzer.py` lines 57-58). -/
def mfccFeats (coeffs : List ℚ) : List (String × ℚ) :=
  coeffs.enum.map (fun p => ("mfcc_" ++ toString p.1, p.2))

/-- The row `analyze_sound` appends for frame number `count` spanning
`[fstart, fend)`, given the raw collaborator outputs: the stored loudness
is the raw loudness divided by the frame's sample count
(`analyzer.py` lines 46-49). -/
def frameOutput (audio_path audio_id : String) (count fstart fend : Nat)
    (rawLoudness : ℚ) (frameLen : Nat) (coeffs : List ℚ) : FrameRow :=
  { freesound_id := audio_id
    id := audio_id ++ "_f" ++ toString count
    path := audio_path
    start_sample := fstart
    end_sample := fend
    feats := ("loudness", rawLoudness / (frameLen : ℚ)) :: mfccFeats coeffs }

/-- The per-frame loop of `analyze_sound` (`analyzer.py` lines 37-60): for
each boundary pair, slice the frame and invoke the external collaborators
(`estd.Loudness`, windowing/spectrum/`estd.MFCC`, both modelled as
fallible functions of the frame samples); a collaborator failure on any
frame aborts the whole file's analysis with that error. -/
def analyzeFramesFrom (loudnessAlgo : List ℚ → Except String ℚ)
    (mfccAlgo : List ℚ → Except String (List ℚ)) (audio : List ℚ)
    (audio_path audio_id : String) :
    Nat → List (Nat × Nat) → Except String (List FrameRow)
  | _, [] => .ok []
  | count, (fstart, fend) :: rest =>
    let frame := pySliceTo audio fstart fend
    match loudnessAlgo frame with
    | .error e => .error e
    | .ok l =>
      match mfccAlgo frame with
      | .error e => .error e
      | .ok coeffs =>
        match analyzeFramesFrom loudnessAlgo mfccAlgo audio audio_path audio_id
            (count + 1) rest with
        | .error e => .error e
        | .ok rows =>
          .ok (frameOutput audio_path audio_id count fstart fend l frame.length
            coeffs :: rows)

/-- Embeds `analyze_sound` (`analyzer.py` lines 7-61, fixed-size mode):
`audio` stands for the decoded buffer, a `none` frame size means the whole
file (`frame_size = len(audio)`), odd sizes are adjusted inside
`segmentFrames`, and the boundary pairs are analyzed in order. -/
def analyze_sound (loudnessAlgo : List ℚ → Except String ℚ)
    (mfccAlgo : List ℚ → Except String (List ℚ)) (audio : List ℚ)
    (audio_path : String) (frame_size : Option Nat) (audio_id : String) :
    Except String (List FrameRow) :=
  analyzeFramesFrom loudnessAlgo mfccAlgo audio audio_path audio_id 0
    (segmentFrames audio.length (frame_size.getD audio.length))

/-- Embeds `analyze_collection` (`analyzer.py` lines 64-89): analyze each
`(path, freesound_id)` of the source collection with `analyze_sound`; a
`RuntimeError` from the analysis of one file skips that whole file
(`except RuntimeError: continue`) and the batch continues with the
remaining files; each file is attempted exactly once. -/
def analyze_collection (loudnessAlgo : List ℚ → Except String ℚ)
    (mfccAlgo : List ℚ → Except String (List ℚ)) (decode : String → List ℚ)
    (frame_size : Nat) : List (String × String) → List FrameRow
  | [] => []
  | (path, fsid) :: rest =>
    match analyze_sound loudnessAlgo mfccAlgo (decode path) path
        (some frame_size) fsid with
    | .ok rows =>
      rows ++ analyze_collection loudnessAlgo mfccAlgo decode frame_size rest
    | .error _ => analyze_collection loudnessAlgo mfccAlgo decode frame_size rest

/-! ## Reconstruction (`mosaicer.py` lines 92-136) -/

/-- `numpy` slice assignment `buf[s : s + len(seg)] = seg` (well-formed
when `s + len(seg) ≤ len(buf)`, which every use below guarantees). -/
def writeAt (buf : List ℚ) (s : Nat) (seg : List ℚ) : List ℚ :=
  buf.take s ++ (seg ++ buf.drop (s + seg.length))

/-- One iteration of the reconstruction loop, after the matcher's choice:
the target frame's `start_sample`/`end_sample` and the chosen source
frame's `path`/`start_sample` (`mosaicer.py` lines 114-130). -/
structure ReconRow where
  target_start : Nat
  target_end : Nat
  source_path : String
  source_start : Nat
deriving DecidableEq, Repr

/-- The reconstruction loop (`mosaicer.py` lines 114-130): for each target
frame, fetch the chosen source segment of the target frame's length
through the segment cache and write it at the target frame's own
`start_sample` offset. -/
def reconLoop (decode : String → List ℚ) :
    List ReconRow → AudioCache → List ℚ → List ℚ
  | [], _, buf => buf
  | r :: rest, cache, buf =>
    let step := get_audio_file_segment decode cache r.source_path
      r.source_start (r.target_end - r.target_start)
    reconLoop decode rest step.1 (writeAt buf r.target_start step.2)

/-- Embeds `reconstruct_audio` (`mosaicer.py` lines 92-136): the output
buffer starts as `np.zeros(total_length)` where `total_length` is the
length of the target's full parent recording, and the loop writes each
chosen segment in target-frame order. The matcher's per-frame decision is
abstracted into the `rows` (claim C3 is about the assembly, which is
independent of how the source frame was chosen). -/
def reconstruct_audio (decode : String → List ℚ) (cache : AudioCache)
    (rows : List ReconRow) (total_length : Nat) : List ℚ :=
  reconLoop decode rows cache (List.replicate total_length 0)

/-- The segment the cache hands the assembler for row `r` (under a
consistent cache): the slice of the decoded source of the target frame's
requested length, clamped to the source's decoded length. -/
def chosenSegment (decode : String → List ℚ) (r : ReconRow) : List ℚ :=
  pySlice (decode r.source_path) r.source_start (r.target_end - r.target_start)

/-! ## Slice lemmas -/

lemma pySlice_length (l : List ℚ) (s n : Nat) :
    (pySlice l s n).length = min n (l.length - s) := by
  simp [pySlice]

lemma pySlice_getElem (l : List ℚ) (s n j : Nat) (hj : j < n) :
    (pySlice l s n)[j]? = l[s + j]? := by
  simp [pySlice, List.getElem?_take, hj, List.getElem?_drop]

lemma pySliceTo_length (l : List ℚ) (a b : Nat) :
    (pySliceTo l a b).length = min (b - a) (l.length - a) := by
  simp [pySliceTo]

/-! ## Claim C2: the segment cache returns the truncated slice -/

/-- What claim C2 asserts of `get_audio_file_segment` on a decoded buffer
of length `B = (decode file_path).length`: the returned segment is exactly
the slice `[s, min(s + n, B))` of the buffer — length `min n (B - s)`,
every sample read from the buffer at offset `s + j` — with no error and no
padding (the function is total and produces no sample that is not in the
buffer). -/
def SegmentSliceSpec (decode : String → List ℚ) (cache : AudioCache)
    (file_path : String) (s n : Nat) : Prop :=
  (get_audio_file_segment decode cache file_path s n).2
      = pySlice (decode file_path) s n
  ∧ ((get_audio_file_segment decode cache file_path s n).2).length
      = min n ((decode file_path).length - s)
  ∧ ∀ j, j < n →
      ((get_audio_file_segment decode cache file_path s n).2)[j]?
        = (decode file_path)[s + j]?

/-- C2: for every consistent cache state, start `s ≤ B` and requested
length `n`, `get_audio_file_segment` returns exactly the truncated slice
`[s, min(s + n, B))` of the decoded buffer — never erroring, never
padding. -/
theorem get_audio_file_segment_spec (decode : String → List ℚ)
    (cache : AudioCache) (file_path : String) (s n : Nat)
    (hc : CacheConsistent decode cache)
    (_hs : s ≤ (decode file_path).length) :
    SegmentSliceSpec decode cache file_path s n := by
  have hseg : (get_audio_file_segment decode cache file_path s n).2
      = pySlice (decode file_path) s n := by
    unfold get_audio_file_segment
    cases hcl : cache.lookup file_path with
    | none => rfl
    | some b => rw [hc file_path b hcl]
  refine ⟨hseg, ?_, ?_⟩
  · rw [hseg, pySlice_length]
  · intro j hj
    rw [hseg, pySlice_getElem _ _ _ _ hj]

/-- A stand-in decoder for concrete witnesses: every path decodes to a
44100-sample silent buffer. -/
def demoDecode : String → List ℚ := fun _ => List.replicate 44100 0

/-- Witness for `get_audio_file_segment_spec`: requesting 1000 samples
starting 10 samples before the end of a 44100-sample file satisfies the
hypotheses, and the spec then gives exactly the `min 1000 10 = 10`
trailing samples. -/
theorem get_audio_file_segment_spec_witness :
    CacheConsistent demoDecode [] ∧ 44090 ≤ (demoDecode "t.wav").length
    ∧ SegmentSliceSpec demoDecode [] "t.wav" 44090 1000 := by
  have hc : CacheConsistent demoDecode [] := by
    intro p b h
    simp [List.lookup] at h
  have hs : 44090 ≤ (demoDecode "t.wav").length := by
    unfold demoDecode
    rw [List.length_replicate]
    norm_num
  exact ⟨hc, hs, get_audio_file_segment_spec demoDecode [] "t.wav" 44090 1000 hc hs⟩

/-! ## Claim C4: trivial one-row nearest-neighbor match -/

/-- A one-row source table whose only similarity feature is
`loudness = 0.0`. -/
def demoSourceRow : FrameRow :=
  { freesound_id := "42", id := "42_f0", path := "42.wav",
    start_sample := 0, end_sample := 4, feats := [("loudness", 0)] }

/-- C4: against a source table with the single row `demoSourceRow`
(`loudness = 0.0`), the query `loudness = 0.5` with `k = 1` returns that
row as the ranked candidate list, and the `"best"` policy then picks it —
the trivial nearest neighbor, with no failure. -/
theorem single_row_best_match :
    find_similar_frames [1/2] [demoSourceRow] 1 ["loudness"]
        = .ok [demoSourceRow]
    ∧ selectFromSimilar "best" [demoSourceRow] 0 = .ok demoSourceRow := by
  constructor
  · rfl
  · rfl

/-! ## Claim C9: malformed similarity queries fail -/

lemma rowSelect_error_of_missing (r : FrameRow) (features : List String)
    (h : ∃ f ∈ features, rowLookup r f = none) :
    ∃ e, rowSelect r features = .error e := by
  induction features with
  | nil => simp at h
  | cons a rest ih =>
    obtain ⟨f, hf, hnone⟩ := h
    rcases List.mem_cons.mp hf with rfl | hmem
    · exact ⟨.keyError f, by simp [rowSelect, hnone]⟩
    · cases hla : rowLookup r a with
      | none => exact ⟨.keyError a, by simp [rowSelect, hla]⟩
      | some v =>
        obtain ⟨e, he⟩ := ih ⟨f, hmem, hnone⟩
        exact ⟨e, by simp [rowSelect, hla, he]⟩

lemma selectMatrix_error_of_missing (df : List FrameRow) (features : List String)
    (h : ∃ f ∈ features, ∃ row ∈ df, rowLookup row f = none) :
    ∃ e, selectMatrix df features = .error e := by
  induction df with
  | nil =>
    obtain ⟨f, _, row, hrow, _⟩ := h
    simp at hrow
  | cons r rest ih =>
    obtain ⟨f, hf, row, hrow, hnone⟩ := h
    rcases List.mem_cons.mp hrow with rfl | hmem
    · obtain ⟨e, he⟩ := rowSelect_error_of_missing row features ⟨f, hf, hnone⟩
      exact ⟨e, by simp [selectMatrix, he]⟩
    · cases hrs : rowSelect r features with
      | error e => exact ⟨e, by simp [selectMatrix, hrs]⟩
      | ok v =>
        obtain ⟨e, he⟩ := ih ⟨f, hf, row, hmem, hnone⟩
        exact ⟨e, by simp [selectMatrix, hrs, he]⟩

lemma selectMatrix_nil_features (df : List FrameRow) :
    selectMatrix df [] = .ok (df.map (fun _ => [])) := by
  induction df with
  | nil => rfl
  | cons r rest ih => simp [selectMatrix, rowSelect, ih]

/-- What claim C9 asserts: the similarity query fails with an error rather
than returning a frame. -/
def InvalidQuerySpec (query : List ℚ) (df : List FrameRow) (n : Nat)
    (features : List String) : Prop :=
  ∃ e, find_similar_frames query df n features = .error e

/-- C9: a similarity match whose `features` list is empty, or which
requests a feature absent from some source row's schema, or whose `k`
exceeds the table's row count, fails with an error instead of returning a
frame. -/
theorem find_similar_frames_invalid (query : List ℚ) (df : List FrameRow)
    (n : Nat) (features : List String)
    (h : features = []
      ∨ (∃ f ∈ features, ∃ row ∈ df, rowLookup row f = none)
      ∨ df.length < n) :
    InvalidQuerySpec query df n features := by
  unfold InvalidQuerySpec
  rcases h with rfl | hmiss | hlen
  · exact ⟨.valueError "found array with 0 feature(s)",
      by simp [find_similar_frames, selectMatrix_nil_features]⟩
  · obtain ⟨e, he⟩ := selectMatrix_error_of_missing df features hmiss
    exact ⟨e, by simp [find_similar_frames, he]⟩
  · cases hsel : selectMatrix df features with
    | error e => exact ⟨e, by simp [find_similar_frames, hsel]⟩
    | ok X =>
      simp only [find_similar_frames, hsel]
      by_cases h1 : features.length = 0
      · rw [if_pos h1]; exact ⟨_, rfl⟩
      rw [if_neg h1]
      by_cases h2 : df.length = 0
      · rw [if_pos h2]; exact ⟨_, rfl⟩
      rw [if_neg h2]
      by_cases h3 : query.length ≠ features.length
      · rw [if_pos h3]; exact ⟨_, rfl⟩
      rw [if_neg h3, if_pos (Or.inr hlen)]
      exact ⟨_, rfl⟩

/-- Witness for `find_similar_frames_invalid`: the empty feature list on
an empty table fails. -/
theorem find_similar_frames_invalid_witness :
    (([] : List String) = []
      ∨ (∃ f ∈ ([] : List String), ∃ row ∈ ([] : List FrameRow),
          rowLookup row f = none)
      ∨ ([] : List FrameRow).length < 1)
    ∧ InvalidQuerySpec [] [] 1 [] :=
  ⟨Or.inl rfl, find_similar_frames_invalid [] [] 1 [] (Or.inl rfl)⟩

/-! ## Claim C10: unknown selection policy -/

/-- A target row exposing no features at all (so the query projection
itself fails). -/
def demoTargetRow : FrameRow :=
  { freesound_id := "t", id := "t_f0", path := "t.wav",
    start_sample := 0, end_sample := 4, feats := [] }

/-- Counterexample to claim C10 as stated: with the unknown policy
`"foo"` but a target row lacking the requested feature, the failure is
pandas' `KeyError` from the query projection, not the policy dispatch's
`ValueError` — so "raises ValueError regardless of the query vector and
source table contents" is false. -/
theorem choose_frame_foo_keyError :
    choose_frame_from_source_collection demoTargetRow [demoSourceRow]
        ["loudness"] "foo" 0 = .error (.keyError "loudness")
    ∧ ∀ msg, choose_frame_from_source_collection demoTargetRow [demoSourceRow]
        ["loudness"] "foo" 0 ≠ .error (.valueError msg) := by
  have h0 : choose_frame_from_source_collection demoTargetRow [demoSourceRow]
      ["loudness"] "foo" 0 = .error (.keyError "loudness") := rfl
  refine ⟨h0, ?_⟩
  intro msg h
  rw [h0] at h
  simp at h

/-- What the amended claim C10 asserts: an unknown policy never yields a
frame, and whenever the query projection and the neighbor search succeed
the error is exactly the policy dispatch's `ValueError`. -/
def InvalidChoiceSpec (target_frame : FrameRow) (df : List FrameRow)
    (features : List String) (choice : String) (rand : Nat) : Prop :=
  (∀ row, choose_frame_from_source_collection target_frame df features choice rand
      ≠ .ok row)
  ∧ (∀ q sims, rowSelect target_frame features = .ok q →
      find_similar_frames q df 10 features = .ok sims →
      choose_frame_from_source_collection target_frame df features choice rand
        = .error (.valueError ("Invalid choice: " ++ choice)))

/-- C10 (amended): for every policy string other than `"random"` and
`"best"`, `choose_frame_from_source_collection` returns no frame; when the
query projection and the 10-nearest-neighbor search succeed, it raises
exactly `ValueError("Invalid choice: ...")`. -/
theorem choose_frame_invalid_choice (target_frame : FrameRow)
    (df : List FrameRow) (features : List String) (choice : String)
    (rand : Nat) (h1 : choice ≠ "random") (h2 : choice ≠ "best") :
    InvalidChoiceSpec target_frame df features choice rand := by
  constructor
  · intro row hrow
    cases hq : rowSelect target_frame features with
    | error e => simp [choose_frame_from_source_collection, hq] at hrow
    | ok q =>
      cases hs : find_similar_frames q df 10 features with
      | error e => simp [choose_frame_from_source_collection, hq, hs] at hrow
      | ok sims =>
        simp only [choose_frame_from_source_collection, hq, hs] at hrow
        unfold selectFromSimilar at hrow
        rw [if_neg h1, if_neg h2] at hrow
        simp at hrow
  · intro q sims hq hs
    simp only [choose_frame_from_source_collection, hq, hs]
    unfold selectFromSimilar
    rw [if_neg h1, if_neg h2]

/-- Witness for `choose_frame_invalid_choice` at the concrete policy
`"foo"`. -/
theorem choose_frame_invalid_choice_witness :
    ("foo" : String) ≠ "random" ∧ ("foo" : String) ≠ "best"
    ∧ InvalidChoiceSpec demoTargetRow [demoSourceRow] ["loudness"] "foo" 0 := by
  refine ⟨by decide, by decide, ?_⟩
  exact choose_frame_invalid_choice demoTargetRow [demoSourceRow] ["loudness"]
    "foo" 0 (by decide) (by decide)

/-! ## Claim C8: batch analysis skips a failing file and continues -/

lemma analyzeFramesFrom_error_of_frame_error
    (loudnessAlgo : List ℚ → Except String ℚ)
    (mfccAlgo : List ℚ → Except String (List ℚ)) (audio : List ℚ)
    (audio_path audio_id : String) (frames : List (Nat × Nat)) :
    ∀ count,
      (∃ p ∈ frames,
        (∃ e, loudnessAlgo (pySliceTo audio p.1 p.2) = .error e)
        ∨ (∃ e, mfccAlgo (pySliceTo audio p.1 p.2) = .error e)) →
      ∃ e, analyzeFramesFrom loudnessAlgo mfccAlgo audio audio_path audio_id
        count frames = .error e := by
  induction frames with
  | nil =>
    intro count h
    obtain ⟨p, hp, _⟩ := h
    simp at hp
  | cons hd rest ih =>
    intro count h
    obtain ⟨fs, fe⟩ := hd
    cases hl : loudnessAlgo (pySliceTo audio fs fe) with
    | error e => exact ⟨e, by simp [analyzeFramesFrom, hl]⟩
    | ok l =>
      cases hm : mfccAlgo (pySliceTo audio fs fe) with
      | error e => exact ⟨e, by simp [analyzeFramesFrom, hl, hm]⟩
      | ok coeffs =>
        obtain ⟨p, hp, hfail⟩ := h
        rcases List.mem_cons.mp hp with rfl | hmem
        · exfalso
          rcases hfail with ⟨e, he⟩ | ⟨e, he⟩
          · rw [hl] at he; exact Except.noConfusion he
          · rw [hm] at he; exact Except.noConfusion he
        · obtain ⟨e, he⟩ := ih (count + 1) ⟨p, hmem, hfail⟩
          exact ⟨e, by simp [analyzeFramesFrom, hl, hm, he]⟩

/-- What claim C8 asserts of collection-level batch analysis: the result
is exactly the concatenation, in collection order, of the rows of the
files whose analysis succeeded — a failing file contributes none of its
frames, every other file contributes all of its frames, the batch never
aborts (the function is total) and each file is analyzed exactly once —
together with the fact that a collaborator failure on any single frame of
a file fails that whole file's analysis. -/
def BatchSkipSpec (loudnessAlgo : List ℚ → Except String ℚ)
    (mfccAlgo : List ℚ → Except String (List ℚ)) (decode : String → List ℚ)
    (frame_size : Nat) (files : List (String × String)) : Prop :=
  analyze_collection loudnessAlgo mfccAlgo decode frame_size files
    = (files.map (fun pr =>
        match analyze_sound loudnessAlgo mfccAlgo (decode pr.1) pr.1
            (some frame_size) pr.2 with
        | .ok rows => rows
        | .error _ => [])).flatten
  ∧ ∀ path fsid,
      (∃ p ∈ segmentFrames (decode path).length frame_size,
        (∃ e, loudnessAlgo (pySliceTo (decode path) p.1 p.2) = .error e)
        ∨ (∃ e, mfccAlgo (pySliceTo (decode path) p.1 p.2) = .error e)) →
      ∃ e, analyze_sound loudnessAlgo mfccAlgo (decode path) path
        (some frame_size) fsid = .error e

/-- C8: if the feature-extraction collaborator fails on any frame of a
file, that file's whole analysis fails and `analyze_collection` appends
none of its frames, continuing with all remaining files; the batch never
aborts and no file is retried. -/
theorem analyze_collection_skips (loudnessAlgo : List ℚ → Except String ℚ)
    (mfccAlgo : List ℚ → Except String (List ℚ)) (decode : String → List ℚ)
    (frame_size : Nat) (files : List (String × String)) :
    BatchSkipSpec loudnessAlgo mfccAlgo decode frame_size files := by
  constructor
  · induction files with
    | nil => rfl
    | cons pr rest ih =>
      obtain ⟨path, fsid⟩ := pr
      cases h : analyze_sound loudnessAlgo mfccAlgo (decode path) path
          (some frame_size) fsid with
      | ok rows => simp [analyze_collection, h, ih]
      | error e => simp [analyze_collection, h, ih]
  · intro path fsid hfail
    exact analyzeFramesFrom_error_of_frame_error loudnessAlgo mfccAlgo
      (decode path) path fsid _ 0 hfail

/-- A loudness collaborator that always fails (modelling a frame too short
for the collaborator's internal windowing), and one that always succeeds,
for concrete witnesses. -/
def demoLoudFail : List ℚ → Except String ℚ := fun _ => .error "too short"

def demoLoudOk : List ℚ → Except String ℚ := fun frame => .ok frame.sum

def demoMfccOk : List ℚ → Except String (List ℚ) := fun _ => .ok []

def demoDecode8 : String → List ℚ := fun _ => [1, 2, 3, 4, 5, 6, 7, 8]

/-- Witness for `analyze_collection_skips` at a concrete failing
collection. -/
theorem analyze_collection_skips_witness :
    BatchSkipSpec demoLoudFail demoMfccOk demoDecode8 2 [("a.wav", "1")] :=
  analyze_collection_skips demoLoudFail demoMfccOk demoDecode8 2 [("a.wav", "1")]

/-! ## Claim C6: each path is decoded at most once -/

/-- A cache entry survives every call unchanged: no call removes or
overwrites an existing entry. -/
lemma get_audio_lookup_mono (decode : String → List ℚ) (cache : AudioCache)
    (file_path : String) (s n : Nat) (q : String) (b : List ℚ)
    (h : cache.lookup q = some b) :
    ((get_audio_file_segment decode cache file_path s n).1).lookup q = some b := by
  unfold get_audio_file_segment
  cases hp : cache.lookup file_path with
  | some a => exact h
  | none =>
    simp only [List.lookup]
    by_cases hq : q = file_path
    · rw [hq] at h
      rw [h] at hp
      exact Option.noConfusion hp
    · have hbeq : (q == file_path) = false := by
        simp [hq]
      rw [hbeq]
      exact h

/-- Every path in the decode log of a request run was absent from the
starting cache. -/
lemma runSegmentRequests_log_uncached (decode : String → List ℚ)
    (reqs : List (String × Nat × Nat)) :
    ∀ (cache : AudioCache) (q : String),
      q ∈ (runSegmentRequests decode reqs cache).2 → cache.lookup q = none := by
  induction reqs with
  | nil =>
    intro cache q hq
    simp [runSegmentRequests] at hq
  | cons req rest ih =>
    intro cache q hq
    obtain ⟨p, s, n⟩ := req
    simp only [runSegmentRequests, List.mem_append] at hq
    rcases hq with hdec | hrest
    · cases hp : cache.lookup p with
      | some a => rw [hp] at hdec; simp at hdec
      | none =>
        rw [hp] at hdec
        simp at hdec
        rw [hdec]
        exact hp
    · have h1 := ih (get_audio_file_segment decode cache p s n).1 q hrest
      cases hq2 : cache.lookup q with
      | none => rfl
      | some b =>
        have := get_audio_lookup_mono decode cache p s n q b hq2
        rw [this] at h1
        exact Option.noConfusion h1

/-- The decode log of any request run has no duplicates. -/
lemma runSegmentRequests_log_nodup (decode : String → List ℚ)
    (reqs : List (String × Nat × Nat)) :
    ∀ cache : AudioCache, ((runSegmentRequests decode reqs cache).2).Nodup := by
  induction reqs with
  | nil =>
    intro cache
    simp [runSegmentRequests]
  | cons req rest ih =>
    intro cache
    obtain ⟨p, s, n⟩ := req
    simp only [runSegmentRequests]
    cases hp : cache.lookup p with
    | some a =>
      simpa using ih (get_audio_file_segment decode cache p s n).1
    | none =>
      rw [show ((if (none : Option (List ℚ)).isNone = true then [p] else [])
          = [p]) from rfl]
      rw [List.singleton_append, List.nodup_cons]
      constructor
      · intro hmem
        have h1 := runSegmentRequests_log_uncached decode rest
          (get_audio_file_segment decode cache p s n).1 p hmem
        have h2 : ((get_audio_file_segment decode cache p s n).1).lookup p
            = some (decode p) := by
          unfold get_audio_file_segment
          rw [hp]
          simp [List.lookup]
        rw [h2] at h1
        exact Option.noConfusion h1
      · exact ih (get_audio_file_segment decode cache p s n).1

/-- What claim C6 asserts of the decoded-audio cache: across any sequence
of `get_audio_file_segment` calls starting from the empty cache, each
distinct path is decoded at most once (the decode log has no duplicates);
no call removes or overwrites an existing entry; the first call for an
uncached path decodes the whole file, stores it, and returns its slice;
every later call for a cached path is served by slicing the cached buffer
with the cache left untouched. -/
def CacheDisciplineSpec (decode : String → List ℚ) : Prop :=
  (∀ reqs : List (String × Nat × Nat),
      ((runSegmentRequests decode reqs []).2).Nodup)
  ∧ (∀ (cache : AudioCache) (file_path : String) (s n : Nat) (q : String)
        (b : List ℚ), cache.lookup q = some b →
      ((get_audio_file_segment decode cache file_path s n).1).lookup q = some b)
  ∧ (∀ (cache : AudioCache) (file_path : String) (s n : Nat),
      cache.lookup file_path = none →
      ((get_audio_file_segment decode cache file_path s n).1).lookup file_path
          = some (decode file_path)
      ∧ (get_audio_file_segment decode cache file_path s n).2
          = pySlice (decode file_path) s n)
  ∧ (∀ (cache : AudioCache) (file_path : String) (s n : Nat) (b : List ℚ),
      cache.lookup file_path = some b →
      (get_audio_file_segment decode cache file_path s n).1 = cache
      ∧ (get_audio_file_segment decode cache file_path s n).2 = pySlice b s n)

/-- C6: the process-lifetime cache decodes each distinct path at most
once; first access decodes and stores the whole file, later accesses slice
the cached buffer without re-decoding, and no entry is ever removed or
overwritten. -/
theorem cache_discipline (decode : String → List ℚ) :
    CacheDisciplineSpec decode := by
  refine ⟨?_, ?_, ?_, ?_⟩
  · intro reqs
    exact runSegmentRequests_log_nodup decode reqs []
  · intro cache file_path s n q b h
    exact get_audio_lookup_mono decode cache file_path s n q b h
  · intro cache file_path s n h
    constructor
    · unfold get_audio_file_segment
      rw [h]
      simp [List.lookup]
    · unfold get_audio_file_segment
      rw [h]
  · intro cache file_path s n b h
    constructor
    · unfold get_audio_file_segment
      rw [h]
    · unfold get_audio_file_segment
      rw [h]

/-- Witness for `cache_discipline`: concrete request sequences and cache
states, with the per-component hypotheses discharged at concrete inputs. -/
theorem cache_discipline_witness :
    ((runSegmentRequests demoDecode8 [("a", 0, 5), ("a", 3, 9), ("b", 0, 2)]
        []).2).Nodup
    ∧ (([("q", [1, 2])] : AudioCache).lookup "q" = some [1, 2]
        ∧ ((get_audio_file_segment demoDecode8 [("q", [1, 2])] "p" 0 3).1).lookup
            "q" = some [1, 2])
    ∧ (([] : AudioCache).lookup "p" = none
        ∧ ((get_audio_file_segment demoDecode8 [] "p" 2 3).1).lookup "p"
            = some (demoDecode8 "p")
        ∧ (get_audio_file_segment demoDecode8 [] "p" 2 3).2
            = pySlice (demoDecode8 "p") 2 3)
    ∧ (([("p", [5, 6, 7])] : AudioCache).lookup "p" = some [5, 6, 7]
        ∧ (get_audio_file_segment demoDecode8 [("p", [5, 6, 7])] "p" 0 2).1
            = [("p", [5, 6, 7])]
        ∧ (get_audio_file_segment demoDecode8 [("p", [5, 6, 7])] "p" 0 2).2
            = pySlice [5, 6, 7] 0 2) := by
  have h := cache_discipline demoDecode8
  have hq : ([("q", [1, 2])] : AudioCache).lookup "q" = some [1, 2] := by
    simp [List.lookup]
  have hpn : ([] : AudioCache).lookup "p" = (none : Option (List ℚ)) := rfl
  have hps : ([("p", [5, 6, 7])] : AudioCache).lookup "p" = some [5, 6, 7] := by
    simp [List.lookup]
  refine ⟨h.1 _, ⟨hq, h.2.1 _ "p" 0 3 "q" [1, 2] hq⟩,
    ⟨hpn, h.2.2.1 [] "p" 2 3 hpn⟩, ⟨hps, h.2.2.2 _ "p" 0 2 [5, 6, 7] hps⟩⟩

/-! ## Claim C3: reconstruction buffer invariants -/

lemma writeAt_length (buf seg : List ℚ) (s : Nat)
    (h : s + seg.length ≤ buf.length) :
    (writeAt buf s seg).length = buf.length := by
  simp only [writeAt, List.length_append, List.length_take, List.length_drop]
  omega

lemma take_length_of_le (buf : List ℚ) (s : Nat) (hs : s ≤ buf.length) :
    (buf.take s).length = s := by
  simp only [List.length_take]
  omega

lemma writeAt_getElem_left (buf seg : List ℚ) (s j : Nat)
    (hs : s ≤ buf.length) (hj : j < s) :
    (writeAt buf s seg)[j]? = buf[j]? := by
  unfold writeAt
  rw [List.getElem?_append, take_length_of_le buf s hs, if_pos hj]
  simp [List.getElem?_take, hj]

lemma writeAt_getElem_mid (buf seg : List ℚ) (s j : Nat)
    (hs : s ≤ buf.length) (hj : j < seg.length) :
    (writeAt buf s seg)[s + j]? = seg[j]? := by
  unfold writeAt
  rw [List.getElem?_append, take_length_of_le buf s hs,
    if_neg (by omega)]
  have h2 : s + j - s = j := by omega
  rw [h2, List.getElem?_append, if_pos hj]

lemma writeAt_getElem_right (buf seg : List ℚ) (s j : Nat)
    (hs : s + seg.length ≤ buf.length) (hj : s + seg.length ≤ j) :
    (writeAt buf s seg)[j]? = buf[j]? := by
  unfold writeAt
  rw [List.getElem?_append, take_length_of_le buf s (by omega),
    if_neg (by omega)]
  rw [List.getElem?_append, if_neg (by omega)]
  rw [List.getElem?_drop]
  congr 1
  omega

/-- Under a consistent cache, the segment fetched for a reconstruction row
is `chosenSegment`, and consistency is preserved. -/
lemma get_segment_consistent (decode : String → List ℚ) (cache : AudioCache)
    (r : ReconRow) (hc : CacheConsistent decode cache) :
    (get_audio_file_segment decode cache r.source_path r.source_start
        (r.target_end - r.target_start)).2 = chosenSegment decode r
    ∧ CacheConsistent decode
        (get_audio_file_segment decode cache r.source_path r.source_start
          (r.target_end - r.target_start)).1 := by
  unfold get_audio_file_segment chosenSegment
  cases hcl : cache.lookup r.source_path with
  | none =>
    refine ⟨rfl, ?_⟩
    intro q b hq
    simp only [List.lookup] at hq
    by_cases hqp : q = r.source_path
    · have hbeq : (q == r.source_path) = true := by simp [hqp]
      rw [hbeq] at hq
      rw [hqp]
      exact (Option.some.injEq _ _).mp hq.symm ▸ (Option.some.inj hq).symm ▸ rfl
    · have hbeq : (q == r.source_path) = false := by simp [hqp]
      rw [hbeq] at hq
      exact hc q b hq
  | some b =>
    rw [hc r.source_path b hcl]
    exact ⟨rfl, hc⟩

lemma chosenSegment_length_le (decode : String → List ℚ) (r : ReconRow) :
    (chosenSegment decode r).length ≤ r.target_end - r.target_start := by
  rw [chosenSegment, pySlice_length]
  omega

/-- The inductive invariant of the reconstruction loop: starting from any
buffer, the loop preserves the buffer length, each row's segment ends up
intact at that row's own target offset, and indices outside every row's
written span keep their previous value. -/
lemma reconLoop_spec (decode : String → List ℚ) (rows : List ReconRow) :
    ∀ (cache : AudioCache) (buf : List ℚ),
      CacheConsistent decode cache →
      (∀ r ∈ rows, r.target_start ≤ r.target_end ∧ r.target_end ≤ buf.length) →
      rows.Pairwise (fun a b =>
        a.target_end ≤ b.target_start ∨ b.target_end ≤ a.target_start) →
      (reconLoop decode rows cache buf).length = buf.length
      ∧ (∀ r ∈ rows, ∀ j, j < (chosenSegment decode r).length →
          (reconLoop decode rows cache buf)[r.target_start + j]?
            = (chosenSegment decode r)[j]?)
      ∧ (∀ j, (∀ r ∈ rows,
            ¬(r.target_start ≤ j
              ∧ j < r.target_start + (chosenSegment decode r).length)) →
          (reconLoop decode rows cache buf)[j]? = buf[j]?) := by
  induction rows with
  | nil =>
    intro cache buf _ _ _
    exact ⟨rfl, by simp, fun j _ => rfl⟩
  | cons r rest ih =>
    intro cache buf hc hb hd
    have hr := hb r (List.mem_cons_self r rest)
    obtain ⟨hseg, hc1⟩ := get_segment_consistent decode cache r hc
    have hpc := List.pairwise_cons.mp hd
    have hsegle := chosenSegment_length_le decode r
    have hwb : r.target_start + (chosenSegment decode r).length ≤ buf.length := by
      omega
    have hloop : reconLoop decode (r :: rest) cache buf
        = reconLoop decode rest
          (get_audio_file_segment decode cache r.source_path r.source_start
            (r.target_end - r.target_start)).1
          (writeAt buf r.target_start (chosenSegment decode r)) := by
      rw [reconLoop, hseg]
    have hlen1 : (writeAt buf r.target_start (chosenSegment decode r)).length
        = buf.length := writeAt_length _ _ _ hwb
    have hb1 : ∀ r' ∈ rest, r'.target_start ≤ r'.target_end
        ∧ r'.target_end ≤ (writeAt buf r.target_start
            (chosenSegment decode r)).length := by
      intro r' hr'
      rw [hlen1]
      exact hb r' (List.mem_cons_of_mem r hr')
    have IH := ih _ (writeAt buf r.target_start (chosenSegment decode r))
      hc1 hb1 hpc.2
    refine ⟨?_, ?_, ?_⟩
    · rw [hloop, IH.1, hlen1]
    · intro r' hr' j hj
      rcases List.mem_cons.mp hr' with rfl | hmem
      · rw [hloop]
        have hout : ∀ r'' ∈ rest,
            ¬(r''.target_start ≤ r'.target_start + j
              ∧ r'.target_start + j
                  < r''.target_start + (chosenSegment decode r'').length) := by
          intro r'' hr''
          have hdis := hpc.1 r'' hr''
          have hb'' := hb r'' (List.mem_cons_of_mem r' hr'')
          have hle'' := chosenSegment_length_le decode r''
          rcases hdis with hcase | hcase
          · intro hcontra
            omega
          · intro hcontra
            omega
        rw [IH.2.2 (r'.target_start + j) hout]
        exact writeAt_getElem_mid buf (chosenSegment decode r') r'.target_start j
          (by omega) hj
      · rw [hloop]
        exact IH.2.1 r' hmem j hj
    · intro j hout
      have hout1 : ∀ r' ∈ rest,
          ¬(r'.target_start ≤ j
            ∧ j < r'.target_start + (chosenSegment decode r').length) := by
        intro r' hr'
        exact hout r' (List.mem_cons_of_mem r hr')
      have houtr := hout r (List.mem_cons_self r rest)
      rw [hloop, IH.2.2 j hout1]
      rcases Nat.lt_or_ge j r.target_start with hlt | hge
      · exact writeAt_getElem_left buf (chosenSegment decode r) r.target_start j
          (by omega) hlt
      · exact writeAt_getElem_right buf (chosenSegment decode r) r.target_start j
          hwb (by omega)

/-- What claim C3 asserts of `reconstruct_audio`: the output buffer has
length exactly the target recording's `total_length` (not the sum of the
frame lengths); each chosen segment sits intact at its own target frame's
`start_sample` offset (so, with the frame ranges disjoint, every output
index is written at most once); and every index outside all written spans
still holds the initial silent value `0`. -/
def ReconstructionSpec (decode : String → List ℚ) (cache : AudioCache)
    (rows : List ReconRow) (total_length : Nat) : Prop :=
  (reconstruct_audio decode cache rows total_length).length = total_length
  ∧ (∀ r ∈ rows, ∀ j, j < (chosenSegment decode r).length →
      (reconstruct_audio decode cache rows total_length)[r.target_start + j]?
        = (chosenSegment decode r)[j]?)
  ∧ (∀ j, j < total_length →
      (∀ r ∈ rows, ¬(r.target_start ≤ j
          ∧ j < r.target_start + (chosenSegment decode r).length)) →
      (reconstruct_audio decode cache rows total_length)[j]? = some 0)

/-- C3: for any target table whose frame ranges are sub-ranges of the
target recording and pairwise disjoint, reconstruction produces a buffer
of length exactly `total_length`, writes each chosen segment at its target
frame's own start offset (each output index at most once), and leaves
every index outside the written spans at the silent value `0`. -/
theorem reconstruct_audio_spec (decode : String → List ℚ) (cache : AudioCache)
    (rows : List ReconRow) (total_length : Nat)
    (hc : CacheConsistent decode cache)
    (hb : ∀ r ∈ rows, r.target_start ≤ r.target_end
        ∧ r.target_end ≤ total_length)
    (hd : rows.Pairwise (fun a b =>
        a.target_end ≤ b.target_start ∨ b.target_end ≤ a.target_start)) :
    ReconstructionSpec decode cache rows total_length := by
  have hb' : ∀ r ∈ rows, r.target_start ≤ r.target_end
      ∧ r.target_end ≤ (List.replicate total_length (0 : ℚ)).length := by
    intro r hr
    rw [List.length_replicate]
    exact hb r hr
  have H := reconLoop_spec decode rows cache
    (List.replicate total_length 0) hc hb' hd
  refine ⟨?_, ?_, ?_⟩
  · rw [reconstruct_audio, H.1, List.length_replicate]
  · intro r hr j hj
    rw [reconstruct_audio]
    exact H.2.1 r hr j hj
  · intro j hjlt hout
    rw [reconstruct_audio, H.2.2 j hout]
    simp [List.getElem?_replicate, hjlt]

/-- Witness for `reconstruct_audio_spec`: two disjoint target frames over
an 8-sample target, sourced from the same demo file. -/
theorem reconstruct_audio_spec_witness :
    CacheConsistent demoDecode8 []
    ∧ (∀ r ∈ [ReconRow.mk 0 3 "a" 0, ReconRow.mk 5 8 "a" 2],
        r.target_start ≤ r.target_end ∧ r.target_end ≤ 8)
    ∧ ([ReconRow.mk 0 3 "a" 0, ReconRow.mk 5 8 "a" 2].Pairwise (fun a b =>
        a.target_end ≤ b.target_start ∨ b.target_end ≤ a.target_start))
    ∧ ReconstructionSpec demoDecode8 [] [ReconRow.mk 0 3 "a" 0,
        ReconRow.mk 5 8 "a" 2] 8 := by
  have hc : CacheConsistent demoDecode8 [] := by
    intro p b h
    simp [List.lookup] at h
  have hb : ∀ r ∈ [ReconRow.mk 0 3 "a" 0, ReconRow.mk 5 8 "a" 2],
      r.target_start ≤ r.target_end ∧ r.target_end ≤ 8 := by decide
  have hd : [ReconRow.mk 0 3 "a" 0, ReconRow.mk 5 8 "a" 2].Pairwise (fun a b =>
      a.target_end ≤ b.target_start ∨ b.target_end ≤ a.target_start) := by
    decide
  exact ⟨hc, hb, hd, reconstruct_audio_spec demoDecode8 [] _ 8 hc hb hd⟩

/-! ## Claim C7: per-sample loudness normalization at analysis time -/

/-- With total collaborators, the analysis loop succeeds and produces
exactly one `frameOutput` row per boundary pair, in order. -/
lemma analyzeFramesFrom_total (rawLoud : List ℚ → ℚ) (rawMfcc : List ℚ → List ℚ)
    (audio : List ℚ) (audio_path audio_id : String)
    (frames : List (Nat × Nat)) :
    ∀ count, ∃ rows,
      analyzeFramesFrom (fun fr => .ok (rawLoud fr)) (fun fr => .ok (rawMfcc fr))
        audio audio_path audio_id count frames = .ok rows
      ∧ rows.length = frames.length
      ∧ ∀ i p row, frames[i]? = some p → rows[i]? = some row →
          row = frameOutput audio_path audio_id (count + i) p.1 p.2
            (rawLoud (pySliceTo audio p.1 p.2))
            (pySliceTo audio p.1 p.2).length
            (rawMfcc (pySliceTo audio p.1 p.2)) := by
  induction frames with
  | nil =>
    intro count
    refine ⟨[], rfl, rfl, ?_⟩
    intro i p row hp _
    simp at hp
  | cons hd rest ih =>
    intro count
    obtain ⟨fs, fe⟩ := hd
    obtain ⟨rows_t, ht, hlen, hprop⟩ := ih (count + 1)
    refine ⟨frameOutput audio_path audio_id count fs fe
        (rawLoud (pySliceTo audio fs fe)) (pySliceTo audio fs fe).length
        (rawMfcc (pySliceTo audio fs fe)) :: rows_t, ?_, ?_, ?_⟩
    · simp [analyzeFramesFrom, ht]
    · simp [hlen]
    · intro i p row hp hrow
      cases i with
      | zero =>
        simp only [List.getElem?_cons_zero, Option.some.injEq] at hp hrow
        rw [← hp, ← hrow, Nat.add_zero]
      | succ i' =>
        simp only [List.getElem?_cons_succ] at hp hrow
        rw [hprop i' p row hp hrow]
        congr 1
        omega

/-- What claim C7 asserts of `analyze_sound` (with collaborators that
succeed on every frame): the analysis succeeds, produces one row per
segmented frame, and for each frame of `n = adjustFrameSize fs0 > 0`
samples the stored `loudness` is the collaborator's raw loudness of those
samples divided by `n`; the stored value is exactly what the matcher's
query projection later reads, with no recomputation (the matching and
reconstruction functions take no collaborator at all). -/
def LoudnessSpec (rawLoud : List ℚ → ℚ) (rawMfcc : List ℚ → List ℚ)
    (audio : List ℚ) (audio_path audio_id : String) (fs0 : Nat) : Prop :=
  ∃ rows,
    analyze_sound (fun fr => .ok (rawLoud fr)) (fun fr => .ok (rawMfcc fr))
      audio audio_path (some fs0) audio_id = .ok rows
    ∧ rows.length = (segmentFrames audio.length fs0).length
    ∧ ∀ (i : Nat) (p : Nat × Nat) (row : FrameRow),
        (segmentFrames audio.length fs0)[i]? = some p →
        rows[i]? = some row →
        row.start_sample = p.1 ∧ row.end_sample = p.2
        ∧ (pySliceTo audio p.1 p.2).length = adjustFrameSize fs0
        ∧ rowLookup row "loudness"
            = some (rawLoud (pySliceTo audio p.1 p.2)
                / ((pySliceTo audio p.1 p.2).length : ℚ))
        ∧ rowSelect row ["loudness"]
            = .ok [rawLoud (pySliceTo audio p.1 p.2)
                / ((pySliceTo audio p.1 p.2).length : ℚ)]

/-- C7: for every frame (of positive sample count `n`), the stored
loudness equals the collaborator's raw loudness of the frame divided by
`n`, computed once at analysis time; matching reads the stored value. -/
theorem analyze_sound_loudness (rawLoud : List ℚ → ℚ)
    (rawMfcc : List ℚ → List ℚ) (audio : List ℚ)
    (audio_path audio_id : String) (fs0 : Nat) (hf : 0 < fs0) :
    LoudnessSpec rawLoud rawMfcc audio audio_path audio_id fs0 := by
  obtain ⟨rows, hok, hlen, hprop⟩ := analyzeFramesFrom_total rawLoud rawMfcc
    audio audio_path audio_id (segmentFrames audio.length fs0) 0
  refine ⟨rows, hok, hlen, ?_⟩
  intro i p row hp hrow
  have hrw := hprop i p row hp hrow
  have hpmem : p ∈ segmentFrames audio.length fs0 := List.getElem?_mem hp
  have hspec := segmentFrames_spec audio.length fs0 hf
  have hpe : p.2 = p.1 + adjustFrameSize fs0 := hspec.2.1 p hpmem
  have hple : p.2 ≤ audio.length := hspec.2.2.2.1 p hpmem
  have hslice : (pySliceTo audio p.1 p.2).length = adjustFrameSize fs0 := by
    rw [pySliceTo_length]
    omega
  rw [hrw]
  refine ⟨rfl, rfl, hslice, ?_, ?_⟩
  · simp [frameOutput, rowLookup, List.lookup]
  · simp [rowSelect, rowLookup, frameOutput, List.lookup]

def demoRawLoud : List ℚ → ℚ := fun l => l.sum

def demoRawMfcc : List ℚ → List ℚ := fun _ => []

/-- Witness for `analyze_sound_loudness` at a concrete 6-sample buffer and
frame size 2. -/
theorem analyze_sound_loudness_witness :
    0 < 2 ∧ LoudnessSpec demoRawLoud demoRawMfcc [1, 2, 3, 4, 5, 6]
      "t.wav" "t" 2 :=
  ⟨by decide, analyze_sound_loudness demoRawLoud demoRawMfcc
    [1, 2, 3, 4, 5, 6] "t.wav" "t" 2 (by decide)⟩

end Mosaic
